import Mathlib

/-!
Verification development for the text-chunking and question-distribution
subsystem of the ai-generative-quiz backend.

The Python sources modelled here are `app/services/text_chunking.py`
(class TextChunkingService) and `app/services/gemini_service.py`
(class GeminiQuestionGenerationService).  Strings are modelled as
`List Char`; every definition is executable and is translated from the
Python source.  The two `re.split` calls are modelled by explicit
character scanners implementing the Python match semantics of the two
concrete patterns used by the source (a blank-line pattern and a
sentence-punctuation pattern, see the comments at the scanners).
-/

set_option maxRecDepth 8000

namespace AQG

/-- ASCII whitespace as recognised by Python `str.strip()`, `str.split()`
and the regex class `\s` on the ASCII inputs considered here:
space, tab, newline, carriage return, vertical tab, form feed. -/
def isPyWs (c : Char) : Bool :=
  c == ' ' || c == '\t' || c == '\n' || c == '\r' || c == '\x0B' || c == '\x0C'

/-- Python `str.strip()`: drop leading and trailing whitespace. -/
def pyStrip (l : List Char) : List Char :=
  ((l.dropWhile isPyWs).reverse.dropWhile isPyWs).reverse

/-- The non-whitespace character sequence of a string (the spec's
"ignoring separator whitespace" view used by its reconstruction property). -/
def nonWs (l : List Char) : List Char :=
  l.filter (fun c => !isPyWs c)

/-! ### `re.split(r'\n\s*\n|\n{2,}', text)` (text_chunking.py line 48)

Match semantics of the pattern, derived by hand from the Python regex
engine (leftmost match, first alternative preferred, greedy `\s*` with
backtracking): the alternative `\n{2,}` can only match where `\n\s*\n`
also matches, so the pattern is equivalent to `\n\s*\n`; a match starts
at a newline whose following maximal whitespace run contains at least
one more newline, and the greedy `\s*` makes the match extend exactly to
the last newline of that run.  Equivalently: a maximal whitespace run
containing at least two newlines is a field boundary; the part of the
run before its first newline belongs to the previous field and the part
after its last newline belongs to the next field.  `sbAux` is a
single-pass scanner with that semantics.  State `normal rf` holds the
reversed current field; state `insep rf bufRev sawTwo` means a newline
has been seen and the scanner is inside the subsequent whitespace run,
`bufRev` holding (reversed) the whitespace seen since the most recent
newline, `sawTwo` recording whether a second newline has appeared. -/

inductive SBState where
  | normal (rf : List Char)
  | insep (rf bufRev : List Char) (sawTwo : Bool)

def sbAux : List Char → SBState → List (List Char)
  | [], .normal rf => [rf.reverse]
  | [], .insep rf bufRev sawTwo =>
      if sawTwo then [rf.reverse, bufRev.reverse]
      else [rf.reverse ++ '\n' :: bufRev.reverse]
  | c :: rest, .normal rf =>
      if c = '\n' then sbAux rest (.insep rf [] false)
      else sbAux rest (.normal (c :: rf))
  | c :: rest, .insep rf bufRev sawTwo =>
      if c = '\n' then sbAux rest (.insep rf [] true)
      else if isPyWs c then sbAux rest (.insep rf (c :: bufRev) sawTwo)
      else if sawTwo then rf.reverse :: sbAux rest (.normal (c :: bufRev))
      else sbAux rest (.normal (c :: (bufRev ++ '\n' :: rf)))

/-- `re.split(r'\n\s*\n|\n{2,}', text)` — the paragraph split. -/
def pySplitBlank (l : List Char) : List (List Char) :=
  sbAux l (.normal [])

/-! ### `re.split(r'[.!?]+\s+', text)` (text_chunking.py line 20)

A separator is a maximal run of sentence punctuation immediately
followed by at least one whitespace character; the greedy `\s+` consumes
the maximal whitespace run.  (Backtracking the punctuation run cannot
help, since a shorter punctuation prefix is followed by a punctuation
character, which is not whitespace; so only the full run can match.)
State `inPunct rf pr` is inside a punctuation run (`pr` reversed);
state `inWs` is inside the whitespace part of a committed separator,
the previous field already emitted. -/

def isSentPunct (c : Char) : Bool :=
  c == '.' || c == '!' || c == '?'

inductive SSState where
  | normal (rf : List Char)
  | inPunct (rf pr : List Char)
  | inWs

def ssAux : List Char → SSState → List (List Char)
  | [], .normal rf => [rf.reverse]
  | [], .inPunct rf pr => [(pr ++ rf).reverse]
  | [], .inWs => [[]]
  | c :: rest, .normal rf =>
      if isSentPunct c then ssAux rest (.inPunct rf [c])
      else ssAux rest (.normal (c :: rf))
  | c :: rest, .inPunct rf pr =>
      if isSentPunct c then ssAux rest (.inPunct rf (c :: pr))
      else if isPyWs c then rf.reverse :: ssAux rest .inWs
      else ssAux rest (.normal (c :: (pr ++ rf)))
  | c :: rest, .inWs =>
      if isPyWs c then ssAux rest .inWs
      else if isSentPunct c then ssAux rest (.inPunct [] [c])
      else ssAux rest (.normal [c])

/-- `re.split(r'[.!?]+\s+', text)` — the sentence split. -/
def pySplitSentences (l : List Char) : List (List Char) :=
  ssAux l (.normal [])

/-- Python `sentence.split(', ')` (text_chunking.py line 80): split on each
non-overlapping occurrence of the two-character separator, left to right. -/
def csAux : List Char → List Char → List (List Char)
  | [], acc => [acc.reverse]
  | ',' :: ' ' :: rest, acc => acc.reverse :: csAux rest []
  | c :: rest, acc => csAux rest (c :: acc)

def splitCommaSpace (l : List Char) : List (List Char) :=
  csAux l []

/-- Python `text.split()` (text_chunking.py line 104): split on whitespace
runs, discarding empty fields. -/
def wordsAux : List Char → List Char → List (List Char)
  | [], acc => if acc.isEmpty then [] else [acc.reverse]
  | c :: rest, acc =>
      if isPyWs c then
        if acc.isEmpty then wordsAux rest [] else acc.reverse :: wordsAux rest []
      else wordsAux rest (c :: acc)

def pyWords (l : List Char) : List (List Char) :=
  wordsAux l []

/-! ### The greedy accumulate/overflow loop

All four chunking loops of `text_chunking.py` share this body (lines
25-35, 53-67, 84-93, 108-117): a state `(chunks, current_chunk)`, and
for each unit `u`:
if `len(current_chunk) + len(u) > max_size` then either emit
`current_chunk.strip()` and restart the accumulator at `u` (accumulator
non-empty) or emit `fallback u` leaving the accumulator empty
(accumulator empty), else append `u` to the accumulator joined by `sep`
(or start it at `u`).  Note the overflow test does not count the join
separator, exactly as in the source. -/
def greedyAccum (maxSize : Nat) (sep : List Char)
    (fallback : List Char → List (List Char))
    (st : List (List Char) × List Char) (u : List Char) :
    List (List Char) × List Char :=
  if st.2.length + u.length > maxSize then
    if st.2 = [] then (st.1 ++ fallback u, st.2)
    else (st.1 ++ [pyStrip st.2], u)
  else
    (st.1, if st.2 = [] then u else st.2 ++ sep ++ u)

/-- Emit the trailing accumulator (`if current_chunk:
chunks.append(current_chunk.strip())`). -/
def closeChunks (st : List (List Char) × List Char) : List (List Char) :=
  if st.2 = [] then st.1 else st.1 ++ [pyStrip st.2]

/-- `TextChunkingService._split_by_words` (text_chunking.py lines 100-122):
greedy word accumulation joined by a single space; a single word that
alone exceeds the limit is truncated to `max_size` characters. -/
def splitByWords (text : List Char) (maxSize : Nat) : List (List Char) :=
  closeChunks ((pyWords text).foldl
    (greedyAccum maxSize [' '] (fun w => [w.take maxSize])) ([], []))

/-- `TextChunkingService._split_long_sentence` (lines 75-98): greedy
comma-part accumulation joined by a comma and a space, overlong single
parts split by words. -/
def splitLongSentence (sentence : List Char) (maxSize : Nat) : List (List Char) :=
  closeChunks ((splitCommaSpace sentence).foldl
    (greedyAccum maxSize [',', ' '] (fun p => splitByWords p maxSize)) ([], []))

/-- `TextChunkingService.chunk_by_sentences` (lines 15-41) before its
final length filter. -/
def chunkBySentencesAll (text : List Char) (maxSize : Nat) : List (List Char) :=
  closeChunks ((pySplitSentences text).foldl
    (greedyAccum maxSize ['.', ' '] (fun s => splitLongSentence s maxSize)) ([], []))

/-- `TextChunkingService.chunk_by_sentences` including the
`len(chunk.strip()) > 50` filter of line 41. -/
def chunkBySentences (text : List Char) (maxSize : Nat) : List (List Char) :=
  (chunkBySentencesAll text maxSize).filter (fun c => 50 < (pyStrip c).length)

/-- One step of the paragraph loop (lines 53-67): the paragraph is
stripped first, empty paragraphs are skipped, and the overflow fallback
for an overlong single paragraph is `chunk_by_sentences` (with its
filter), whose results are emitted directly. -/
def paraStep (maxSize : Nat) (st : List (List Char) × List Char)
    (p : List Char) : List (List Char) × List Char :=
  if pyStrip p = [] then st
  else greedyAccum maxSize ['\n', '\n'] (fun q => chunkBySentences q maxSize)
    st (pyStrip p)

/-- `TextChunkingService.chunk_by_paragraphs` (lines 43-73) before its
final length filter. -/
def chunkByParagraphsAll (text : List Char) (maxSize : Nat) : List (List Char) :=
  closeChunks ((pySplitBlank text).foldl (paraStep maxSize) ([], []))

/-- `TextChunkingService.chunk_by_paragraphs` including the
`len(chunk.strip()) > 50` filter of line 73. -/
def chunkByParagraphs (text : List Char) (maxSize : Nat) : List (List Char) :=
  (chunkByParagraphsAll text maxSize).filter (fun c => 50 < (pyStrip c).length)

/-- The strategy string used by the chunked generation path. -/
def paragraphsStrategy : String := "paragraphs"

/-- `TextChunkingService.smart_chunk_text` (lines 124-154): strip the
text, return it as a single chunk when it already fits, otherwise
dispatch on the strategy string. -/
def smartChunkText (text : List Char) (maxSize : Nat) (strategy : String) :
    List (List Char) :=
  if (pyStrip text).length ≤ maxSize then [pyStrip text]
  else if strategy = paragraphsStrategy then chunkByParagraphs (pyStrip text) maxSize
  else chunkBySentences (pyStrip text) maxSize

/-! ## gemini_service.py — the chunk planner and aggregator

Questions are opaque to this subsystem (spec section 3: "only counted
and concatenated"), so the generation loop is parametric in a type `Q`
of questions and a type `ε` of generator errors.  The external generator
(`_generate_from_single_text` behind the Gemini API) is an opaque
function `gen : List Char → Int → Except ε (List Q)`; `Except.error`
models a raised exception. -/

/-- One step of the budget loop of
`_distribute_questions_across_chunks` (gemini_service.py lines 161-169):
every chunk except the last gets `max(1, int(total_questions * size /
total_size))`, the last gets the (possibly negative) remainder.
Python computes `int(total_questions * (size / total_size))` with float
division; it is modelled here by exact integer floor division.  None of
the properties proved below depends on the rounding of the non-last
entries — only on the `max 1` floor and on the telescoping last entry. -/
def budgetsAux (total totalSize : Nat) : List Nat → Int → List Int
  | [], _ => []
  | [_], distributed => [(total : Int) - distributed]
  | s :: s2 :: rest, distributed =>
      let b : Int := max 1 ((total * s / totalSize : Nat) : Int)
      b :: budgetsAux total totalSize (s2 :: rest) (distributed + b)

/-- `GeminiQuestionGenerationService._distribute_questions_across_chunks`
(lines 148-171).  When there are at least two chunks and the total size
is zero, Python's `size / total_size` raises `ZeroDivisionError`
(a single chunk never reaches the division: its only iteration is the
last-chunk branch); this is modelled by `none`. -/
def distributeQuestions (chunks : List (List Char)) (total : Nat) :
    Option (List Int) :=
  if chunks.isEmpty then some []
  else if 2 ≤ chunks.length ∧ (chunks.map List.length).sum = 0 then none
  else some (budgetsAux total (chunks.map List.length).sum
    (chunks.map List.length) 0)

/-- One step of the first-pass loop of `_generate_from_chunked_text`
(lines 105-119): skip a non-positive budget without calling the
generator, otherwise call it, extending the accumulator on success and
leaving it unchanged on a caught exception (`except ... continue`). -/
def fpStep {Q ε : Type} (gen : List Char → Int → Except ε (List Q))
    (acc : List Q) (cb : List Char × Int) : List Q :=
  if cb.2 ≤ 0 then acc
  else
    match gen cb.1 cb.2 with
    | .ok l => acc ++ l
    | .error _ => acc

/-- One step of the backfill loop (lines 130-143), state
`(all_questions, remaining)`: stop once enough questions are
accumulated (the loop's `break`, equivalent to skipping since the
accumulator only grows), otherwise request `min(remaining, 3)` more from
the indexed chunk, extending the accumulator and recomputing `remaining`
on success, and skipping on a caught exception. -/
def bfStep {Q ε : Type} (num : Nat) (chunks : List (List Char))
    (gen : List Char → Int → Except ε (List Q))
    (st : List Q × Int) (idxSize : Nat × Nat) : List Q × Int :=
  if num ≤ st.1.length then st
  else
    match gen (chunks.getD idxSize.1 []) (min st.2 3) with
    | .ok l => (st.1 ++ l, (num : Int) - ((st.1 ++ l).length : Int))
    | .error _ => st

/-- Stable insertion of an `(index, size)` pair into a list sorted by
descending size: an element is placed before the first strictly smaller
or equally sized element, which reproduces the stable
`chunk_sizes.sort(key=lambda x: x[1], reverse=True)` of line 128. -/
def insertBySizeDesc (x : Nat × Nat) : List (Nat × Nat) → List (Nat × Nat)
  | [] => [x]
  | y :: ys => if x.2 ≥ y.2 then x :: y :: ys else y :: insertBySizeDesc x ys

def sortBySizeDesc (l : List (Nat × Nat)) : List (Nat × Nat) :=
  l.foldr insertBySizeDesc []

/-- Lines 127-130: `(index, len(chunk))` pairs sorted by descending
size, top two taken. -/
def rankedChunks (chunks : List (List Char)) : List (Nat × Nat) :=
  (sortBySizeDesc (chunks.enum.map (fun ic => (ic.1, ic.2.length)))).take 2

/-- The body of `_generate_from_chunked_text` after budgets are known
(lines 103-146): first pass over `zip(chunks, questions_per_chunk)`,
then, only if the accumulator is short, the backfill pass over the two
largest chunks, starting from `remaining = num - len(all_questions)`. -/
def runChunkedLoop {Q ε : Type} (num : Nat) (chunks : List (List Char))
    (gen : List Char → Int → Except ε (List Q)) (budgets : List Int) :
    List Q :=
  let firstPass := (chunks.zip budgets).foldl (fpStep gen) []
  if firstPass.length < num then
    ((rankedChunks chunks).foldl (bfStep num chunks gen)
      (firstPass, (num : Int) - (firstPass.length : Int))).1
  else firstPass

/-- `GeminiQuestionGenerationService._generate_from_chunked_text`
(lines 81-146): chunk with the paragraph strategy, distribute the
budgets, run the two passes, and return the first `num` questions
(line 146, `all_questions[:num_questions]`).  `none` models an uncaught
exception (only the allocator's division by zero can produce one). -/
def generateFromChunkedText {Q ε : Type} (text : List Char) (num maxC : Nat)
    (gen : List Char → Int → Except ε (List Q)) : Option (List Q) :=
  match distributeQuestions (smartChunkText text maxC paragraphsStrategy) num with
  | none => none
  | some budgets =>
      some ((runChunkedLoop num (smartChunkText text maxC paragraphsStrategy)
        gen budgets).take num)

/-- The chunking gate of `generate_questions` (line 44): the document is
processed as a single segment iff chunking is disabled or the raw text
length is at most the limit.  `shouldChunk` is the negation of that
condition (spec section 4.1). -/
def shouldChunk (enabled : Bool) (text : List Char) (maxC : Nat) : Bool :=
  enabled && decide (maxC < text.length)

/-- `GeminiQuestionGenerationService.generate_questions` (lines 40-49):
the direct path hands the whole text and the full count to the
generator and returns its result unchanged; the chunked path runs
`_generate_from_chunked_text`.  A generator error on the direct path is
re-raised as a top-level failure (`none`). -/
def generateQuestions {Q ε : Type} (text : List Char) (num : Nat)
    (gen : List Char → Int → Except ε (List Q)) (maxC : Nat)
    (enabled : Bool) : Option (List Q) :=
  if enabled = false ∨ text.length ≤ maxC then
    match gen text (num : Int) with
    | .ok l => some l
    | .error _ => none
  else generateFromChunkedText text num maxC gen

/-- Replace every generator failure by an empty successful result.  The
failure-isolation property states that the chunked loop treats a
failing segment exactly like a segment contributing no questions. -/
def suppressFailures {Q ε : Type}
    (gen : List Char → Int → Except ε (List Q)) :
    List Char → Int → Except ε (List Q) :=
  fun c n =>
    .ok (match gen c n with
      | .ok l => l
      | .error _ => [])

/-! ## Whitespace bookkeeping lemmas -/

theorem nonWs_nil : nonWs [] = [] := rfl

theorem nonWs_append (a b : List Char) : nonWs (a ++ b) = nonWs a ++ nonWs b := by
  simp [nonWs, List.filter_append]

theorem nonWs_cons_ws {c : Char} (h : isPyWs c = true) (l : List Char) :
    nonWs (c :: l) = nonWs l := by
  simp [nonWs, List.filter_cons, h]

theorem nonWs_cons_not_ws {c : Char} (h : isPyWs c = false) (l : List Char) :
    nonWs (c :: l) = c :: nonWs l := by
  simp [nonWs, List.filter_cons, h]

theorem nonWs_reverse (l : List Char) : nonWs l.reverse = (nonWs l).reverse := by
  simp [nonWs, List.filter_reverse]

theorem nonWs_all_ws {l : List Char} (h : ∀ c ∈ l, isPyWs c = true) :
    nonWs l = [] := by
  simp only [nonWs, List.filter_eq_nil_iff]
  intro a ha
  simp [h a ha]

theorem nonWs_dropWhile (l : List Char) :
    nonWs (l.dropWhile isPyWs) = nonWs l := by
  conv_rhs => rw [← List.takeWhile_append_dropWhile (p := isPyWs) (l := l)]
  rw [nonWs_append, nonWs_all_ws (fun c hc => List.mem_takeWhile_imp hc),
    List.nil_append]

theorem nonWs_pyStrip (l : List Char) : nonWs (pyStrip l) = nonWs l := by
  simp [pyStrip, nonWs_reverse, nonWs_dropWhile]

theorem nonWs_eq_nil_of_pyStrip_nil {l : List Char} (h : pyStrip l = []) :
    nonWs l = [] := by
  rw [← nonWs_pyStrip, h]
  rfl

theorem dropWhile_length_le (p : Char → Bool) (l : List Char) :
    (l.dropWhile p).length ≤ l.length := by
  induction l with
  | nil => simp
  | cons a t ih =>
    by_cases h : p a
    · simp only [List.dropWhile_cons, h, if_true, List.length_cons]
      omega
    · simp [List.dropWhile_cons, h]

theorem pyStrip_length_le (l : List Char) : (pyStrip l).length ≤ l.length := by
  rw [pyStrip, List.length_reverse]
  refine le_trans (dropWhile_length_le _ _) ?_
  rw [List.length_reverse]
  exact dropWhile_length_le _ _

theorem nonWs_flatten (L : List (List Char)) :
    nonWs L.flatten = (L.map nonWs).flatten := by
  induction L with
  | nil => rfl
  | cons a L ih => simp [List.flatten_cons, nonWs_append, ih]

/-! ## The paragraph split loses only whitespace -/

/-- Invariant of the blank-line scanner state: the pending-whitespace
buffer holds only whitespace characters. -/
def SBWf : SBState → Prop
  | .normal _ => True
  | .insep _ bufRev _ => ∀ c ∈ bufRev, isPyWs c = true

/-- The non-whitespace content already committed to the current field of
a scanner state. -/
def sbFieldNonWs : SBState → List Char
  | .normal rf => nonWs rf.reverse
  | .insep rf _ _ => nonWs rf.reverse

theorem nlWs : isPyWs '\n' = true := rfl

theorem sbAux_nonWs (l : List Char) : ∀ st, SBWf st →
    ((sbAux l st).map nonWs).flatten = sbFieldNonWs st ++ nonWs l := by
  induction l with
  | nil =>
    intro st hst
    cases st with
    | normal rf => simp [sbAux, sbFieldNonWs, nonWs]
    | insep rf bufRev sawTwo =>
      have hbuf : nonWs bufRev.reverse = [] :=
        nonWs_all_ws (fun c hc => hst c (List.mem_reverse.mp hc))
      cases sawTwo with
      | true => simp [sbAux, sbFieldNonWs, hbuf, nonWs_nil]
      | false =>
        simp [sbAux, sbFieldNonWs, nonWs_append, nonWs_cons_ws nlWs, hbuf,
          nonWs_nil]
  | cons c rest ih =>
    intro st hst
    cases st with
    | normal rf =>
      by_cases hc : c = '\n'
      · subst hc
        rw [show sbAux ('\n' :: rest) (.normal rf) =
            sbAux rest (.insep rf [] false) from by simp [sbAux]]
        rw [ih (.insep rf [] false) (by intro x hx; cases hx)]
        simp [sbFieldNonWs, nonWs_cons_ws nlWs]
      · rw [show sbAux (c :: rest) (.normal rf) =
            sbAux rest (.normal (c :: rf)) from by simp [sbAux, hc]]
        rw [ih (.normal (c :: rf)) trivial]
        by_cases hw : isPyWs c
        · simp [sbFieldNonWs, nonWs_append, nonWs_cons_ws hw, nonWs_nil,
            nonWs_all_ws (l := [c]) (by simpa using hw)]
        · simp only [Bool.not_eq_true] at hw
          simp [sbFieldNonWs, nonWs_append, nonWs_cons_not_ws hw,
            nonWs_cons_not_ws hw rest, nonWs, hw]
    | insep rf bufRev sawTwo =>
      have hbuf : nonWs bufRev.reverse = [] :=
        nonWs_all_ws (fun x hx => hst x (List.mem_reverse.mp hx))
      by_cases hc : c = '\n'
      · subst hc
        rw [show sbAux ('\n' :: rest) (.insep rf bufRev sawTwo) =
            sbAux rest (.insep rf [] true) from by simp [sbAux]]
        rw [ih (.insep rf [] true) (by intro x hx; cases hx)]
        simp [sbFieldNonWs, nonWs_cons_ws nlWs]
      · by_cases hw : isPyWs c
        · rw [show sbAux (c :: rest) (.insep rf bufRev sawTwo) =
              sbAux rest (.insep rf (c :: bufRev) sawTwo) from by
            simp [sbAux, hc, hw]]
          rw [ih (.insep rf (c :: bufRev) sawTwo) (by
            intro x hx
            rcases List.mem_cons.mp hx with h | h
            · subst h; exact hw
            · exact hst x h)]
          simp [sbFieldNonWs, nonWs_cons_ws hw]
        · simp only [Bool.not_eq_true] at hw
          cases sawTwo with
          | true =>
            rw [show sbAux (c :: rest) (.insep rf bufRev true) =
                rf.reverse :: sbAux rest (.normal (c :: bufRev)) from by
              simp [sbAux, hc, hw]]
            rw [List.map_cons, List.flatten_cons,
              ih (.normal (c :: bufRev)) trivial]
            simp [sbFieldNonWs, nonWs_append, hbuf, nonWs_nil,
              nonWs_cons_not_ws hw, hw]
          | false =>
            rw [show sbAux (c :: rest) (.insep rf bufRev false) =
                sbAux rest (.normal (c :: (bufRev ++ '\n' :: rf))) from by
              simp [sbAux, hc, hw]]
            rw [ih (.normal (c :: (bufRev ++ '\n' :: rf))) trivial]
            simp [sbFieldNonWs, nonWs_append, nonWs_reverse, hbuf, nonWs_nil,
              nonWs_cons_ws nlWs, nonWs_cons_not_ws hw, hw]

/-- The paragraph split of the source loses exactly the separator
whitespace: the concatenated non-whitespace content of the fields is the
non-whitespace content of the input. -/
theorem pySplitBlank_nonWs (l : List Char) :
    ((pySplitBlank l).map nonWs).flatten = nonWs l := by
  rw [pySplitBlank, sbAux_nonWs l (.normal []) trivial]
  rfl

/-! ## The paragraph accumulation loop preserves non-whitespace content -/

/-- The non-whitespace content held by a greedy-loop state: the emitted
chunks followed by the pending accumulator. -/
def stContent (st : List (List Char) × List Char) : List Char :=
  (st.1.map nonWs).flatten ++ nonWs st.2

theorem stContent_closeChunks (st : List (List Char) × List Char) :
    ((closeChunks st).map nonWs).flatten = stContent st := by
  rw [closeChunks]
  by_cases h : st.2 = []
  · simp [stContent, h, nonWs_nil]
  · simp [stContent, h, nonWs_pyStrip]

theorem paraStep_content {maxSize : Nat} {p : List Char}
    (hp : (pyStrip p).length ≤ maxSize) (st : List (List Char) × List Char) :
    stContent (paraStep maxSize st p) = stContent st ++ nonWs p := by
  rw [paraStep]
  by_cases h0 : pyStrip p = []
  · rw [if_pos h0, nonWs_eq_nil_of_pyStrip_nil h0, List.append_nil]
  · rw [if_neg h0, greedyAccum]
    by_cases hov : st.2.length + (pyStrip p).length > maxSize
    · rw [if_pos hov]
      have h2 : ¬ st.2 = [] := by
        intro hnil
        rw [hnil] at hov
        simp at hov
        omega
      rw [if_neg h2]
      simp [stContent, nonWs_pyStrip, List.append_assoc]
    · rw [if_neg hov]
      by_cases h2 : st.2 = []
      · simp [stContent, h2, nonWs_pyStrip, nonWs_nil]
      · simp [stContent, h2, nonWs_append, nonWs_pyStrip,
          nonWs_cons_ws nlWs, nonWs_nil, List.append_assoc]

theorem paraFold_content (maxSize : Nat) :
    ∀ (ps : List (List Char)) (st : List (List Char) × List Char),
    (∀ p ∈ ps, (pyStrip p).length ≤ maxSize) →
    stContent (ps.foldl (paraStep maxSize) st) =
      stContent st ++ (ps.map nonWs).flatten := by
  intro ps
  induction ps with
  | nil => intro st _; simp
  | cons p ps ih =>
    intro st h
    rw [List.foldl_cons, ih _ (fun q hq => h q (List.mem_cons_of_mem _ hq)),
      paraStep_content (h p (List.mem_cons_self _ _)) st]
    simp [List.append_assoc]

/-- When every (stripped) paragraph of the input fits within the size
limit — so the sentence-strategy fallback of line 65 is never taken —
the pre-filter paragraph chunking preserves the non-whitespace content
of the input exactly. -/
theorem chunkByParagraphsAll_nonWs (text : List Char) (maxSize : Nat)
    (h : ∀ p ∈ pySplitBlank text, (pyStrip p).length ≤ maxSize) :
    nonWs (chunkByParagraphsAll text maxSize).flatten = nonWs text := by
  rw [nonWs_flatten, chunkByParagraphsAll, stContent_closeChunks,
    paraFold_content maxSize (pySplitBlank text) ([], []) h,
    pySplitBlank_nonWs]
  rfl

/-! ## Claim C1 -/

/-- Counterexample input for C1: two 60-character sentences joined by
an exclamation mark and a space. -/
def c1ceText : List Char :=
  List.replicate 60 'a' ++ '!' :: ' ' :: List.replicate 60 'b'

/-- C1 counterexample: on `c1ceText` with limit 70, `chunk_by_sentences`
produces a two-segment list in which no segment was dropped by the
50-character filter, yet the concatenation of the segments does not
reconstruct the non-whitespace character sequence of the input: the
regex split discards the non-whitespace character `!` (and the greedy
join would re-insert a period instead).  This refutes the claimed
lossless reconstruction for the sentence strategy. -/
theorem c1_counterexample :
    chunkBySentencesAll c1ceText 70 = chunkBySentences c1ceText 70
    ∧ (chunkBySentences c1ceText 70).length = 2
    ∧ nonWs (chunkBySentences c1ceText 70).flatten ≠ nonWs c1ceText := by
  decide

/-- C1 (amended): restricted to the paragraph strategy on inputs in
which every stripped paragraph fits within `maxSize` (so the
punctuation-destroying sentence fallback is never taken), segmentation
is lossless up to whitespace: concatenating the pre-filter segments
reconstructs the non-whitespace character sequence of the input exactly
(no loss, no duplication), the returned list is exactly the pre-filter
list with segments of trimmed length ≤ 50 dropped, and every dropped
segment has trimmed length ≤ 50. -/
theorem c1_paragraph_reconstruction (text : List Char) (maxSize : Nat)
    (h : ∀ p ∈ pySplitBlank text, (pyStrip p).length ≤ maxSize) :
    nonWs (chunkByParagraphsAll text maxSize).flatten = nonWs text
    ∧ chunkByParagraphs text maxSize =
        (chunkByParagraphsAll text maxSize).filter
          (fun c => 50 < (pyStrip c).length)
    ∧ ∀ c ∈ chunkByParagraphsAll text maxSize,
        c ∉ chunkByParagraphs text maxSize → (pyStrip c).length ≤ 50 := by
  refine ⟨chunkByParagraphsAll_nonWs text maxSize h, rfl, ?_⟩
  intro c hc hnot
  by_contra hlen
  exact hnot (List.mem_filter.mpr ⟨hc, by simpa using hlen⟩)

/-- Witness input for the amended C1: two 60-character paragraphs
separated by a blank line, with limit 200. -/
def c1wText : List Char :=
  List.replicate 60 'a' ++ '\n' :: '\n' :: List.replicate 60 'b'

theorem c1_paragraph_reconstruction_witness :
    nonWs (chunkByParagraphsAll c1wText 200).flatten = nonWs c1wText
    ∧ chunkByParagraphs c1wText 200 =
        (chunkByParagraphsAll c1wText 200).filter
          (fun c => 50 < (pyStrip c).length)
    ∧ ∀ c ∈ chunkByParagraphsAll c1wText 200,
        c ∉ chunkByParagraphs c1wText 200 → (pyStrip c).length ≤ 50 :=
  c1_paragraph_reconstruction c1wText 200 (by decide)

/-! ## Budget allocation lemmas -/

theorem budgetsAux_length (total totalSize : Nat) :
    ∀ (sizes : List Nat) (d : Int),
    (budgetsAux total totalSize sizes d).length = sizes.length := by
  intro sizes
  induction sizes with
  | nil => intro d; rfl
  | cons s rest ih =>
    intro d
    cases rest with
    | nil => rfl
    | cons s2 r2 =>
      rw [budgetsAux]
      simp only [List.length_cons]
      rw [ih]
      simp

theorem budgetsAux_sum (total totalSize : Nat) :
    ∀ (sizes : List Nat) (d : Int), sizes ≠ [] →
    (budgetsAux total totalSize sizes d).sum = (total : Int) - d := by
  intro sizes
  induction sizes with
  | nil => intro d h; exact absurd rfl h
  | cons s rest ih =>
    intro d _
    cases rest with
    | nil => simp [budgetsAux]
    | cons s2 r2 =>
      rw [budgetsAux]
      simp only [List.sum_cons]
      rw [ih _ (by simp)]
      omega

theorem distributeQuestions_spec {chunks : List (List Char)} {total : Nat}
    {budgets : List Int} (hne : chunks ≠ [])
    (h : distributeQuestions chunks total = some budgets) :
    budgets.length = chunks.length ∧ budgets.sum = (total : Int) := by
  rw [distributeQuestions] at h
  rw [if_neg (by simpa using hne)] at h
  by_cases hg : 2 ≤ chunks.length ∧ (chunks.map List.length).sum = 0
  · rw [if_pos hg] at h
    cases h
  · rw [if_neg hg] at h
    have hmne : chunks.map List.length ≠ [] := by
      simpa using hne
    injection h with h
    subst h
    refine ⟨?_, ?_⟩
    · rw [budgetsAux_length, List.length_map]
    · rw [budgetsAux_sum _ _ _ _ hmne]
      omega

/-! ## Claim C2 -/

/-- C2 counterexample: for the two-segment list of two empty strings
(one segment or more, `totalRequested = 1`), the allocator does not
return a budget list at all — `size / total_size` raises
`ZeroDivisionError` because the total size is zero — so the claimed
universally returned budget list does not exist. -/
theorem c2_counterexample :
    distributeQuestions [[], []] 1 = none
    ∧ ¬ ∃ budgets, distributeQuestions [[], []] 1 = some budgets := by
  have h : distributeQuestions [[], []] 1 = none := by decide
  refine ⟨h, ?_⟩
  rintro ⟨b, hb⟩
  rw [h] at hb
  cases hb

/-- C2 (amended): for every segment list with at least one segment and
`totalRequested ≥ 1`, provided additionally that the list is a single
segment or the segments' total character count is positive (otherwise
the allocator raises a division-by-zero error), the allocator returns a
budget list with one entry per segment in the same order whose entries
sum exactly to `totalRequested`. -/
theorem c2_distribute_sum (chunks : List (List Char)) (total : Nat)
    (hne : chunks ≠ []) (_htot : 1 ≤ total)
    (hsz : chunks.length = 1 ∨ 0 < (chunks.map List.length).sum) :
    ∃ budgets, distributeQuestions chunks total = some budgets
      ∧ budgets.length = chunks.length
      ∧ budgets.sum = (total : Int) := by
  have hguard : ¬ (2 ≤ chunks.length ∧ (chunks.map List.length).sum = 0) := by
    rcases hsz with h1 | h2
    · rintro ⟨ha, _⟩
      omega
    · rintro ⟨_, hb⟩
      omega
  have hsome : distributeQuestions chunks total =
      some (budgetsAux total (chunks.map List.length).sum
        (chunks.map List.length) 0) := by
    rw [distributeQuestions, if_neg (by simpa using hne), if_neg hguard]
  exact ⟨_, hsome, (distributeQuestions_spec hne hsome).1,
    (distributeQuestions_spec hne hsome).2⟩

theorem c2_distribute_sum_witness :
    ∃ budgets, distributeQuestions [['a'], ['b', 'c']] 5 = some budgets
      ∧ budgets.length = ([['a'], ['b', 'c']] : List (List Char)).length
      ∧ budgets.sum = (5 : Int) :=
  c2_distribute_sum [['a'], ['b', 'c']] 5 (by decide) (by decide)
    (Or.inr (by decide))

/-! ## Claim C7 -/

/-- C7: the chunking decision is false — the document is handed to the
generator as a single segment in one direct call — if and only if
chunking is disabled or the text length is at most `maxChunkChars`; in
particular every text with `len(text) ≤ maxChunkChars` is processed
without any splitting, the generator receiving the whole text and the
full requested count. -/
theorem c7_chunking_gate (enabled : Bool) (text : List Char) (maxC : Nat) :
    (shouldChunk enabled text maxC = false
      ↔ (enabled = false ∨ text.length ≤ maxC))
    ∧ ∀ (Q ε : Type) (num : Nat) (gen : List Char → Int → Except ε (List Q)),
        text.length ≤ maxC →
        generateQuestions text num gen maxC enabled =
          (match gen text (num : Int) with
            | .ok l => some l
            | .error _ => none) := by
  constructor
  · rw [shouldChunk]
    cases enabled <;> simp [Nat.not_lt]
  · intro Q ε num gen hle
    rw [generateQuestions, if_pos (Or.inr hle)]

theorem c7_chunking_gate_witness :
    (shouldChunk true ['a', 'b'] 5 = false
      ↔ ((true : Bool) = false ∨ (['a', 'b'] : List Char).length ≤ 5))
    ∧ generateQuestions ['a', 'b'] 3
        (fun _ n => Except.ok (ε := Unit) [n]) 5 true = some [(3 : Int)] := by
  refine ⟨(c7_chunking_gate true ['a', 'b'] 5).1, ?_⟩
  rw [(c7_chunking_gate true ['a', 'b'] 5).2 Int Unit 3
    (fun _ n => Except.ok [n]) (by decide)]
  rfl

/-! ## Claim C8 -/

/-- C8: segmentation is deterministic — `smart_chunk_text` is a pure
function of `(text, maxChunkChars, strategy)`, so any two runs on equal
inputs return identical segment lists.  The embedding itself witnesses
that the result depends on nothing else: `smartChunkText` is a total
function of exactly these three arguments, with no randomness and no
external calls. -/
theorem c8_smart_chunk_deterministic (t1 t2 : List Char) (m1 m2 : Nat)
    (s1 s2 : String) (ht : t1 = t2) (hm : m1 = m2) (hs : s1 = s2) :
    smartChunkText t1 m1 s1 = smartChunkText t2 m2 s2 := by
  subst ht
  subst hm
  subst hs
  rfl

theorem c8_smart_chunk_deterministic_witness :
    smartChunkText ['a', 'b'] 1 paragraphsStrategy =
      smartChunkText ['a', 'b'] 1 paragraphsStrategy :=
  c8_smart_chunk_deterministic ['a', 'b'] ['a', 'b'] 1 1
    paragraphsStrategy paragraphsStrategy rfl rfl rfl

/-! ## Claim C10 -/

/-- C10: for every input whose trimmed length is at most
`maxChunkChars`, `smart_chunk_text` returns exactly one segment equal to
the trimmed input — regardless of strategy, and even when the trimmed
length is ≤ 50: the short-segment filter is applied only inside the
splitting paths, never to the single-segment small-input path. -/
theorem c10_small_input_single_segment (text : List Char) (maxC : Nat)
    (strategy : String) (h : (pyStrip text).length ≤ maxC) :
    smartChunkText text maxC strategy = [pyStrip text] := by
  rw [smartChunkText, if_pos h]

/-- Witness: a six-character input trimming to the two-character segment
`hi` — far below the 50-character noise threshold — is returned as that
single segment. -/
theorem c10_small_input_single_segment_witness :
    smartChunkText [' ', ' ', 'h', 'i', ' ', ' '] 400 paragraphsStrategy =
      [pyStrip [' ', ' ', 'h', 'i', ' ', ' ']]
    ∧ (pyStrip [' ', ' ', 'h', 'i', ' ', ' ']).length ≤ 50 :=
  ⟨c10_small_input_single_segment [' ', ' ', 'h', 'i', ' ', ' '] 400
    paragraphsStrategy (by decide), by decide⟩

/-! ## Claim C5: a 6000-character single paragraph at limit 4000

The input below is the concrete scenario of the claim: one paragraph of
6000 characters with no blank-line boundary, consisting of a
60-character sentence, a sentence separator, and a 5938-character
sentence.  Kernel evaluation on lists of this size is not feasible, so
the run of the chunker on it is computed symbolically. -/

def c5text : List Char :=
  List.replicate 60 'b' ++ '.' :: ' ' :: List.replicate 5938 'c'

theorem c5text_cons :
    c5text = 'b' ::
      (List.replicate 59 'b' ++ '.' :: ' ' :: List.replicate 5938 'c') := by
  rw [c5text, show List.replicate 60 'b' = 'b' :: List.replicate 59 'b' from rfl,
    List.cons_append]

theorem c5text_length : c5text.length = 6000 := by
  rw [c5text, List.length_append, List.length_replicate, List.length_cons,
    List.length_cons, List.length_replicate]

theorem c5text_ne_nil : c5text ≠ [] := by
  rw [c5text_cons]
  exact List.cons_ne_nil _ _

theorem dropWhile_cons_neg {c : Char} (l : List Char) (h : isPyWs c = false) :
    List.dropWhile isPyWs (c :: l) = c :: l := by
  simp [List.dropWhile_cons, h]

theorem pyStrip_replicate (n : Nat) {c : Char} (h : isPyWs c = false) :
    pyStrip (List.replicate n c) = List.replicate n c := by
  cases n with
  | zero => rfl
  | succ n =>
    rw [pyStrip, List.replicate_succ, dropWhile_cons_neg _ h,
      ← List.replicate_succ, List.reverse_replicate, List.replicate_succ,
      dropWhile_cons_neg _ h, ← List.replicate_succ, List.reverse_replicate]

theorem c5text_reverse :
    c5text.reverse = 'c' ::
      (List.replicate 5937 'c' ++ ' ' :: '.' :: List.replicate 60 'b') := by
  rw [c5text, List.reverse_append, List.reverse_cons, List.reverse_cons,
    List.reverse_replicate, List.reverse_replicate,
    show List.replicate 5938 'c' = 'c' :: List.replicate 5937 'c' from rfl]
  simp only [List.cons_append, List.append_assoc, List.singleton_append,
    List.nil_append]

theorem c5text_pyStrip : pyStrip c5text = c5text := by
  rw [pyStrip]
  conv_lhs => rw [c5text_cons]
  rw [dropWhile_cons_neg _ (by decide), ← c5text_cons, c5text_reverse,
    dropWhile_cons_neg _ (by decide), ← c5text_reverse, List.reverse_reverse]

/-- A text containing no newline is a single paragraph: the blank-line
scanner just accumulates it into one field. -/
theorem sbAux_all_normal :
    ∀ (l : List Char), (∀ c ∈ l, c ≠ '\n') → ∀ rf,
    sbAux l (.normal rf) = [rf.reverse ++ l] := by
  intro l
  induction l with
  | nil => intro _ rf; simp [sbAux]
  | cons c rest ih =>
    intro h rf
    rw [show sbAux (c :: rest) (.normal rf) = sbAux rest (.normal (c :: rf))
      from by simp [sbAux, h c (List.mem_cons_self _ _)]]
    rw [ih (fun x hx => h x (List.mem_cons_of_mem _ hx)) (c :: rf)]
    simp

theorem c5text_single_paragraph : pySplitBlank c5text = [c5text] := by
  have hno : ∀ c ∈ c5text, c ≠ '\n' := by
    intro c hc
    simp only [c5text, List.mem_append, List.mem_cons, List.mem_replicate] at hc
    rcases hc with ⟨_, rfl⟩ | rfl | rfl | ⟨_, rfl⟩ <;> decide
  rw [pySplitBlank, sbAux_all_normal c5text hno []]
  rfl

/-- The sentence scanner accumulates a run of one non-punctuation
character into the current field. -/
theorem ssAux_replicate_normal (c : Char) (h : isSentPunct c = false) :
    ∀ (n : Nat) (rest rf : List Char),
    ssAux (List.replicate n c ++ rest) (.normal rf) =
      ssAux rest (.normal (List.replicate n c ++ rf)) := by
  intro n
  induction n with
  | zero => intro rest rf; simp
  | succ n ih =>
    intro rest rf
    conv_lhs => rw [List.replicate_succ, List.cons_append]
    rw [show ssAux (c :: (List.replicate n c ++ rest)) (.normal rf) =
        ssAux (List.replicate n c ++ rest) (.normal (c :: rf))
      from by simp [ssAux, h]]
    rw [ih rest (c :: rf)]
    conv_rhs => rw [List.replicate_succ']
    rw [List.append_assoc, List.singleton_append]

theorem ssAux_step_punct {c : Char} (h : isSentPunct c = true)
    (rest rf : List Char) :
    ssAux (c :: rest) (.normal rf) = ssAux rest (.inPunct rf [c]) := by
  simp [ssAux, h]

theorem ssAux_step_emit {c : Char} (hp : isSentPunct c = false)
    (hw : isPyWs c = true) (rest rf pr : List Char) :
    ssAux (c :: rest) (.inPunct rf pr) =
      rf.reverse :: ssAux rest .inWs := by
  simp [ssAux, hp, hw]

theorem ssAux_step_ws_exit {c : Char} (hw : isPyWs c = false)
    (hp : isSentPunct c = false) (rest : List Char) :
    ssAux (c :: rest) .inWs = ssAux rest (.normal [c]) := by
  simp [ssAux, hw, hp]

theorem ssAux_nil_normal (rf : List Char) :
    ssAux [] (.normal rf) = [rf.reverse] := rfl

theorem c5text_sentences :
    pySplitSentences c5text =
      [List.replicate 60 'b', List.replicate 5938 'c'] := by
  rw [pySplitSentences, c5text,
    ssAux_replicate_normal 'b' (by decide) 60
      ('.' :: ' ' :: List.replicate 5938 'c') [],
    List.append_nil]
  rw [ssAux_step_punct (by decide) (' ' :: List.replicate 5938 'c')
    (List.replicate 60 'b')]
  rw [ssAux_step_emit (by decide) (by decide) (List.replicate 5938 'c')
    (List.replicate 60 'b') ['.']]
  rw [show List.replicate 5938 'c' = 'c' :: List.replicate 5937 'c' from rfl]
  rw [ssAux_step_ws_exit (by decide) (by decide) (List.replicate 5937 'c')]
  have h2 := ssAux_replicate_normal 'c' (by decide) 5937 [] ['c']
  rw [List.append_nil] at h2
  rw [h2, ssAux_nil_normal, List.reverse_append, List.reverse_replicate,
    List.reverse_replicate, List.reverse_singleton, List.singleton_append]

/-! ### Single steps of the greedy loop, with symbolic payloads -/

theorem greedyAccum_start {maxSize : Nat} {sep : List Char}
    {fb : List Char → List (List Char)} {chunks : List (List Char)}
    {u : List Char} (h : ¬ ([] : List Char).length + u.length > maxSize) :
    greedyAccum maxSize sep fb (chunks, []) u = (chunks, u) := by
  simp only [greedyAccum]
  rw [if_neg h]
  simp

theorem greedyAccum_emit {maxSize : Nat} {sep : List Char}
    {fb : List Char → List (List Char)} {chunks : List (List Char)}
    {cur u : List Char} (h : cur.length + u.length > maxSize)
    (hc : cur ≠ []) :
    greedyAccum maxSize sep fb (chunks, cur) u =
      (chunks ++ [pyStrip cur], u) := by
  simp only [greedyAccum]
  rw [if_pos h, if_neg hc]

theorem greedyAccum_fallback {maxSize : Nat} {sep : List Char}
    {fb : List Char → List (List Char)} {chunks : List (List Char)}
    {u : List Char} (h : ([] : List Char).length + u.length > maxSize) :
    greedyAccum maxSize sep fb (chunks, []) u = (chunks ++ fb u, []) := by
  simp only [greedyAccum]
  rw [if_pos h]
  simp

theorem closeChunks_pending {chunks : List (List Char)} {cur : List Char}
    (h : cur ≠ []) : closeChunks (chunks, cur) = chunks ++ [pyStrip cur] := by
  simp only [closeChunks]
  rw [if_neg h]

theorem replicate_ne_nil_of_pos {n : Nat} {c : Char} (h : 0 < n) :
    List.replicate n c ≠ [] := by
  cases n with
  | zero => omega
  | succ n => rw [List.replicate_succ]; exact List.cons_ne_nil _ _

theorem c5text_chunkBySentencesAll :
    chunkBySentencesAll c5text 4000 =
      [List.replicate 60 'b', List.replicate 5938 'c'] := by
  rw [chunkBySentencesAll, c5text_sentences, List.foldl_cons,
    greedyAccum_start (by rw [List.length_nil, List.length_replicate]; omega),
    List.foldl_cons,
    greedyAccum_emit
      (by rw [List.length_replicate, List.length_replicate]; omega)
      (replicate_ne_nil_of_pos (by omega)),
    List.foldl_nil,
    closeChunks_pending (replicate_ne_nil_of_pos (by omega)),
    pyStrip_replicate 60 (by decide), pyStrip_replicate 5938 (by decide),
    List.nil_append]
  rfl

theorem c5text_chunkBySentences :
    chunkBySentences c5text 4000 =
      [List.replicate 60 'b', List.replicate 5938 'c'] := by
  rw [chunkBySentences, c5text_chunkBySentencesAll,
    List.filter_cons_of_pos (by
      rw [pyStrip_replicate 60 (by decide), List.length_replicate]
      decide),
    List.filter_cons_of_pos (by
      rw [pyStrip_replicate 5938 (by decide), List.length_replicate]
      decide),
    List.filter_nil]

theorem c5text_chunkByParagraphs :
    chunkByParagraphs c5text 4000 =
      [List.replicate 60 'b', List.replicate 5938 'c'] := by
  rw [chunkByParagraphs, chunkByParagraphsAll, c5text_single_paragraph,
    List.foldl_cons, paraStep, c5text_pyStrip]
  rw [if_neg c5text_ne_nil,
    greedyAccum_fallback (by rw [List.length_nil, c5text_length]; omega),
    List.foldl_nil,
    show closeChunks (([] : List (List Char)) ++
        chunkBySentences c5text 4000, []) =
      ([] : List (List Char)) ++ chunkBySentences c5text 4000 from rfl,
    List.nil_append, c5text_chunkBySentences,
    List.filter_cons_of_pos (by
      rw [pyStrip_replicate 60 (by decide), List.length_replicate]
      decide),
    List.filter_cons_of_pos (by
      rw [pyStrip_replicate 5938 (by decide), List.length_replicate]
      decide),
    List.filter_nil]

theorem c5text_smartChunkText :
    smartChunkText c5text 4000 paragraphsStrategy =
      [List.replicate 60 'b', List.replicate 5938 'c'] := by
  rw [smartChunkText, c5text_pyStrip,
    if_neg (by rw [c5text_length]; omega), if_pos rfl,
    c5text_chunkByParagraphs]

/-- C5 evaluation: the concrete scenario of the claim — a single
6000-character paragraph (no blank-line boundary, already stripped) at
`maxChunkChars = 4000` under the paragraph strategy.  Segmentation does
fall back to sentence splitting, but the result violates the claimed
bound: the second segment has 5938 characters, exceeding 4000 while not
being a 4000-character word truncation.  The source's own docstring
calls the parameter "Maximum characters per chunk"; the slip is that an
oversized sentence reached while the accumulator is non-empty is
emitted whole (text_chunking.py line 30), never split. -/
theorem c5_oversized_segment :
    c5text.length = 6000
    ∧ pySplitBlank c5text = [c5text]
    ∧ pyStrip c5text = c5text
    ∧ smartChunkText c5text 4000 paragraphsStrategy =
        chunkBySentences c5text 4000
    ∧ (smartChunkText c5text 4000 paragraphsStrategy).map List.length =
        [60, 5938]
    ∧ ¬ (∀ seg ∈ smartChunkText c5text 4000 paragraphsStrategy,
          seg.length ≤ 4000) := by
  refine ⟨c5text_length, c5text_single_paragraph, c5text_pyStrip, ?_, ?_, ?_⟩
  · rw [c5text_smartChunkText, c5text_chunkBySentences]
  · rw [c5text_smartChunkText, List.map_cons, List.map_cons, List.map_nil,
      List.length_replicate, List.length_replicate]
  · intro hall
    have h2 := hall (List.replicate 5938 'c') (by
      rw [c5text_smartChunkText]
      exact List.mem_cons_of_mem _ (List.mem_cons_self _ _))
    rw [List.length_replicate] at h2
    omega

/-! ## Lemmas about the chunked generation loop -/

/-- Any chunk list produced by `smart_chunk_text` is safe for the
allocator: it is empty, a singleton, or all its members have positive
length (they survived the 50-character filter). -/
theorem distributeQuestions_some (chunks : List (List Char)) (total : Nat)
    (h : chunks = [] ∨ chunks.length = 1 ∨ ∃ c ∈ chunks, 0 < c.length) :
    ∃ budgets, distributeQuestions chunks total = some budgets := by
  rcases h with rfl | h1 | ⟨c, hc, hlen⟩
  · exact ⟨[], rfl⟩
  · rw [distributeQuestions,
      if_neg (by
        simp only [List.isEmpty_iff]
        intro hnil
        rw [hnil] at h1
        simp at h1),
      if_neg (by rintro ⟨h2, _⟩; omega)]
    exact ⟨_, rfl⟩
  · have hne : chunks ≠ [] := by rintro rfl; cases hc
    have hsum : 0 < (chunks.map List.length).sum :=
      lt_of_lt_of_le hlen
        (List.single_le_sum (fun x _ => Nat.zero_le x) _
          (List.mem_map_of_mem List.length hc))
    rw [distributeQuestions, if_neg (by simpa using hne),
      if_neg (by rintro ⟨_, h2⟩; omega)]
    exact ⟨_, rfl⟩

theorem smartChunkText_safe (text : List Char) (maxC : Nat) :
    smartChunkText text maxC paragraphsStrategy = []
    ∨ (smartChunkText text maxC paragraphsStrategy).length = 1
    ∨ ∃ c ∈ smartChunkText text maxC paragraphsStrategy, 0 < c.length := by
  rw [smartChunkText]
  by_cases hsmall : (pyStrip text).length ≤ maxC
  · rw [if_pos hsmall]
    right; left; rfl
  · rw [if_neg hsmall, if_pos rfl]
    cases hc : chunkByParagraphs (pyStrip text) maxC with
    | nil => left; rfl
    | cons c rest =>
      right; right
      refine ⟨c, List.mem_cons_self _ _, ?_⟩
      have hmem : c ∈ chunkByParagraphs (pyStrip text) maxC := by
        rw [hc]; exact List.mem_cons_self _ _
      rw [chunkByParagraphs] at hmem
      have hp := List.of_mem_filter hmem
      simp only [decide_eq_true_eq] at hp
      have := pyStrip_length_le c
      omega

theorem generateFromChunkedText_isSome {Q ε : Type} (text : List Char)
    (num maxC : Nat) (gen : List Char → Int → Except ε (List Q)) :
    ∃ qs, generateFromChunkedText text num maxC gen = some qs := by
  obtain ⟨budgets, hb⟩ := distributeQuestions_some
    (smartChunkText text maxC paragraphsStrategy) num
    (smartChunkText_safe text maxC)
  rw [generateFromChunkedText, hb]
  exact ⟨_, rfl⟩

/-! ### Failure suppression (claim C4) -/

theorem fpStep_suppress {Q ε : Type}
    (gen : List Char → Int → Except ε (List Q)) :
    fpStep (suppressFailures gen) = fpStep gen := by
  funext acc cb
  by_cases h : cb.2 ≤ 0
  · simp [fpStep, h]
  · cases hg : gen cb.1 cb.2 <;> simp [fpStep, suppressFailures, h, hg]

/-- The backfill step on an explicit state pair (definitional). -/
theorem bfStep_mk {Q ε : Type} (num : Nat) (chunks : List (List Char))
    (gen : List Char → Int → Except ε (List Q)) (acc : List Q) (r : Int)
    (i : Nat × Nat) :
    bfStep num chunks gen (acc, r) i =
      if num ≤ acc.length then (acc, r)
      else
        match gen (chunks.getD i.1 []) (min r 3) with
        | .ok l => (acc ++ l, (num : Int) - ((acc ++ l).length : Int))
        | .error _ => (acc, r) := rfl

theorem bfFold_suppress {Q ε : Type} (num : Nat)
    (chunks : List (List Char))
    (gen : List Char → Int → Except ε (List Q)) :
    ∀ (ranked : List (Nat × Nat)) (acc : List Q),
    ranked.foldl (bfStep num chunks (suppressFailures gen))
        (acc, (num : Int) - (acc.length : Int)) =
      ranked.foldl (bfStep num chunks gen)
        (acc, (num : Int) - (acc.length : Int)) := by
  intro ranked
  induction ranked with
  | nil => intro acc; rfl
  | cons i ranked ih =>
    intro acc
    rw [List.foldl_cons, List.foldl_cons, bfStep_mk, bfStep_mk]
    by_cases hskip : num ≤ acc.length
    · rw [if_pos hskip, if_pos hskip]
      exact ih acc
    · rw [if_neg hskip, if_neg hskip]
      cases hg : gen (chunks.getD i.1 [])
        (min ((num : Int) - (acc.length : Int)) 3) with
      | ok l =>
        rw [show suppressFailures gen (chunks.getD i.1 [])
            (min ((num : Int) - (acc.length : Int)) 3) =
            Except.ok (ε := ε) l from by rw [suppressFailures, hg]]
        exact ih (acc ++ l)
      | error e =>
        rw [show suppressFailures gen (chunks.getD i.1 [])
            (min ((num : Int) - (acc.length : Int)) 3) =
            Except.ok (ε := ε) [] from by rw [suppressFailures, hg]]
        dsimp only
        rw [List.append_nil]
        exact ih acc

theorem runChunkedLoop_suppress {Q ε : Type} (num : Nat)
    (chunks : List (List Char))
    (gen : List Char → Int → Except ε (List Q)) (budgets : List Int) :
    runChunkedLoop num chunks (suppressFailures gen) budgets =
      runChunkedLoop num chunks gen budgets := by
  rw [runChunkedLoop, runChunkedLoop, fpStep_suppress]
  by_cases h : ((chunks.zip budgets).foldl (fpStep gen) []).length < num
  · rw [if_pos h, if_pos h, bfFold_suppress]
  · rw [if_neg h, if_neg h]

/-! ## Claim C4 -/

/-- C4: per-segment failure isolation.  For every input, requested
count, limit and generator behaviour, the chunked generation path (1)
never surfaces a top-level failure — it always returns a result — and
(2) returns exactly what it would return if every failing generator
call were replaced by a successful call contributing no questions: each
failing segment is skipped (logged in the source) and the loop
continues, accumulating the questions of the non-failing segments. -/
theorem c4_failure_isolation {Q ε : Type} (text : List Char)
    (num maxC : Nat) (gen : List Char → Int → Except ε (List Q)) :
    (∃ qs, generateFromChunkedText text num maxC gen = some qs)
    ∧ generateFromChunkedText text num maxC gen =
        generateFromChunkedText text num maxC (suppressFailures gen) := by
  refine ⟨generateFromChunkedText_isSome text num maxC gen, ?_⟩
  obtain ⟨budgets, hb⟩ := distributeQuestions_some
    (smartChunkText text maxC paragraphsStrategy) num
    (smartChunkText_safe text maxC)
  rw [generateFromChunkedText, generateFromChunkedText, hb]
  dsimp only
  rw [runChunkedLoop_suppress]

/-! ## Claim C9 -/

theorem fpStep_congr {Q ε : Type}
    {gen1 gen2 : List Char → Int → Except ε (List Q)}
    (h : ∀ c n, 1 ≤ n → gen1 c n = gen2 c n) :
    fpStep gen1 = fpStep gen2 := by
  funext acc cb
  by_cases hb : cb.2 ≤ 0
  · simp [fpStep, hb]
  · simp only [fpStep, if_neg hb]
    rw [h cb.1 cb.2 (by omega)]

theorem bfFold_congr {Q ε : Type} (num : Nat) (chunks : List (List Char))
    {gen1 gen2 : List Char → Int → Except ε (List Q)}
    (h : ∀ c n, 1 ≤ n → gen1 c n = gen2 c n) :
    ∀ (ranked : List (Nat × Nat)) (acc : List Q),
    ranked.foldl (bfStep num chunks gen1)
        (acc, (num : Int) - (acc.length : Int)) =
      ranked.foldl (bfStep num chunks gen2)
        (acc, (num : Int) - (acc.length : Int)) := by
  intro ranked
  induction ranked with
  | nil => intro acc; rfl
  | cons i ranked ih =>
    intro acc
    rw [List.foldl_cons, List.foldl_cons, bfStep_mk, bfStep_mk]
    by_cases hskip : num ≤ acc.length
    · rw [if_pos hskip, if_pos hskip]
      exact ih acc
    · rw [if_neg hskip, if_neg hskip]
      have hmin : 1 ≤ min ((num : Int) - (acc.length : Int)) 3 := by
        have : (acc.length : Int) < (num : Int) := by
          exact_mod_cast Nat.lt_of_not_le hskip
        omega
      rw [h (chunks.getD i.1 []) _ hmin]
      cases hg : gen2 (chunks.getD i.1 [])
        (min ((num : Int) - (acc.length : Int)) 3) with
      | ok l =>
        dsimp only
        exact ih (acc ++ l)
      | error e =>
        dsimp only
        exact ih acc

/-- C9: the generator is never invoked with a non-positive question
count.  Stated extensionally: the outcome of the chunked generation
path depends only on the generator's behaviour at counts ≥ 1, for any
two generators agreeing on all positive counts.  First-pass segments
whose allocated budget is ≤ 0 (including a negative last-segment
remainder) are skipped without a call, and every backfill call requests
`min(remaining, 3)` at a point where `remaining ≥ 1`. -/
theorem c9_no_nonpositive_calls {Q ε : Type} (text : List Char)
    (num maxC : Nat) (gen1 gen2 : List Char → Int → Except ε (List Q))
    (h : ∀ c n, 1 ≤ n → gen1 c n = gen2 c n) :
    generateFromChunkedText text num maxC gen1 =
      generateFromChunkedText text num maxC gen2 := by
  rw [generateFromChunkedText, generateFromChunkedText]
  cases hb : distributeQuestions (smartChunkText text maxC paragraphsStrategy)
      num with
  | none => rfl
  | some budgets =>
    dsimp only
    rw [runChunkedLoop, runChunkedLoop, fpStep_congr h]
    by_cases hlen : (((smartChunkText text maxC paragraphsStrategy).zip
        budgets).foldl (fpStep gen2) []).length < num
    · rw [if_pos hlen, if_pos hlen, bfFold_congr num _ h]
    · rw [if_neg hlen, if_neg hlen]

/-- Witness for C9: two concrete generators differing only at counts
≤ 0 produce identical results on a concrete document. -/
def c9gen1 : List Char → Int → Except Unit (List Int) :=
  fun _ n => Except.ok [n]

def c9gen2 : List Char → Int → Except Unit (List Int) :=
  fun _ n => if 1 ≤ n then Except.ok [n] else Except.error ()

theorem c9_no_nonpositive_calls_witness :
    generateFromChunkedText [' ', 'q', ' '] 2 1 c9gen1 =
      generateFromChunkedText [' ', 'q', ' '] 2 1 c9gen2 :=
  c9_no_nonpositive_calls [' ', 'q', ' '] 2 1 c9gen1 c9gen2
    (fun c n hn => by rw [c9gen1, c9gen2, if_pos hn])

/-! ## Claim C3 -/

theorem fpFold_length_exact {Q ε : Type}
    (gen : List Char → Int → Except ε (List Q))
    (hgen : ∀ c n, 1 ≤ n → ∃ l, gen c n = Except.ok l ∧ (l.length : Int) = n) :
    ∀ (pairs : List (List Char × Int)) (acc : List Q),
    (((pairs.foldl (fpStep gen) acc).length : Int)) =
      (acc.length : Int) + (pairs.map (fun p => max p.2 0)).sum := by
  intro pairs
  induction pairs with
  | nil => intro acc; simp
  | cons p pairs ih =>
    intro acc
    rw [List.foldl_cons]
    by_cases hb : p.2 ≤ 0
    · rw [show fpStep gen acc p = acc from by simp [fpStep, hb]]
      rw [ih acc, List.map_cons, List.sum_cons,
        show max p.2 0 = 0 from by omega]
      ring
    · obtain ⟨l, hl, hlen⟩ := hgen p.1 p.2 (by omega)
      rw [show fpStep gen acc p = acc ++ l from by simp [fpStep, hb, hl]]
      rw [ih (acc ++ l), List.map_cons, List.sum_cons, List.length_append,
        show max p.2 0 = p.2 from by omega]
      push_cast
      omega

theorem zip_budget_sum_le :
    ∀ (l1 : List (List Char)) (l2 : List Int), l1.length = l2.length →
    l2.sum ≤ ((l1.zip l2).map (fun p => max p.2 0)).sum := by
  intro l1
  induction l1 with
  | nil =>
    intro l2 h
    cases l2 with
    | nil => simp
    | cons b t => simp at h
  | cons a l1 ih =>
    intro l2 h
    cases l2 with
    | nil => simp at h
    | cons b t =>
      rw [List.zip_cons_cons, List.map_cons, List.sum_cons, List.sum_cons]
      exact add_le_add (le_max_left b 0) (ih t (by simpa using h))

/-- C3 (amended): for every input, limit, and `totalRequested ≥ 1`, if
the generator always succeeds and returns exactly the number of
questions requested of it, then the chunked generation path returns
exactly `totalRequested` questions — provided segmentation produces at
least one segment.  (When segmentation filters out every segment, the
path returns an empty list instead; see the counterexample.) -/
theorem c3_exact_generator_count {Q ε : Type} (text : List Char)
    (num maxC : Nat) (gen : List Char → Int → Except ε (List Q))
    (_hnum : 1 ≤ num)
    (hgen : ∀ c n, 1 ≤ n → ∃ l, gen c n = Except.ok l ∧ (l.length : Int) = n)
    (hne : smartChunkText text maxC paragraphsStrategy ≠ []) :
    ∃ qs, generateFromChunkedText text num maxC gen = some qs
      ∧ qs.length = num := by
  obtain ⟨budgets, hb⟩ := distributeQuestions_some _ num
    (smartChunkText_safe text maxC)
  have hspec := distributeQuestions_spec hne hb
  have hfp : ((((smartChunkText text maxC paragraphsStrategy).zip
      budgets).foldl (fpStep gen) []).length : Int) =
      (((smartChunkText text maxC paragraphsStrategy).zip budgets).map
        (fun p => max p.2 0)).sum := by
    rw [fpFold_length_exact gen hgen]
    simp
  have hge : (num : Int) ≤
      ((((smartChunkText text maxC paragraphsStrategy).zip budgets).foldl
        (fpStep gen) []).length : Int) := by
    rw [hfp, ← hspec.2]
    exact zip_budget_sum_le _ budgets hspec.1.symm
  have hgeNat : num ≤ (((smartChunkText text maxC paragraphsStrategy).zip
      budgets).foldl (fpStep gen) []).length := by
    exact_mod_cast hge
  refine ⟨(runChunkedLoop num (smartChunkText text maxC paragraphsStrategy)
    gen budgets).take num, ?_, ?_⟩
  · rw [generateFromChunkedText, hb]
  · rw [runChunkedLoop, if_neg (by omega), List.length_take]
    omega

/-- Input for the C3 counterexample: fourteen characters in three short
words, yielding (at limit 10) word-level chunks that are all dropped by
the 50-character filter. -/
def c3text : List Char :=
  List.replicate 4 'a' ++ ' ' ::
    (List.replicate 4 'b' ++ ' ' :: List.replicate 4 'c')

/-- A generator returning exactly the requested number of questions. -/
def c3gen : List Char → Int → Except Unit (List Nat) :=
  fun _ n => Except.ok (List.replicate n.toNat 0)

/-- C3 counterexample: with an exact generator and
`totalRequested = 1`, the chunked path on `c3text` at limit 10 returns
no questions at all — segmentation filters out every segment (each is
≤ 50 characters), the budget list is empty and both passes are
vacuous — refuting the claim that exactly `totalRequested` questions
are returned for every input text. -/
theorem c3_counterexample :
    (∀ c n, 1 ≤ n → ∃ l, c3gen c n = Except.ok l ∧ (l.length : Int) = n)
    ∧ generateFromChunkedText c3text 1 10 c3gen = some ([] : List Nat)
    ∧ ([] : List Nat).length ≠ 1 := by
  refine ⟨?_, by decide, by decide⟩
  intro c n hn
  exact ⟨_, rfl, by
    rw [List.length_replicate]
    exact_mod_cast Int.toNat_of_nonneg (by omega)⟩

/-- Witness input for the amended C3: two 51-character paragraphs at
limit 60 — two segments survive, budgets `[1, 2]`, and the exact
generator yields exactly 3 questions. -/
def c3wText : List Char :=
  List.replicate 51 'a' ++ '\n' :: '\n' :: List.replicate 51 'b'

theorem c3_exact_generator_count_witness :
    ∃ qs, generateFromChunkedText c3wText 3 60 c3gen = some qs
      ∧ qs.length = 3 :=
  c3_exact_generator_count c3wText 3 60 c3gen (by decide)
    (fun c n hn => ⟨_, rfl, by
      rw [List.length_replicate]
      exact_mod_cast Int.toNat_of_nonneg (by omega)⟩)
    (by decide)

/-! ## Claim C6 -/

/-- A generator that over-produces: asked for any count, it returns two
questions. -/
def c6gen : List Char → Int → Except Unit (List Nat) :=
  fun _ _ => Except.ok [0, 0]

/-- C6 counterexample: on the direct (non-chunked) path — chunking
disabled, `totalRequested = 1` — the generator's over-produced result is
returned unmodified: two questions, exceeding `totalRequested`.  No
truncation exists on this path (gemini_service.py line 46 returns the
single-call result directly), refuting the claimed universal
`length ≤ totalRequested` bound. -/
theorem c6_counterexample :
    generateQuestions ['a', 'b'] 1 c6gen 100 false = some [0, 0]
    ∧ ¬ (([0, 0] : List Nat).length ≤ 1) := by
  decide

/-- C6 (amended): the chunked generation path returns at most
`totalRequested` questions for every behaviour of the generator —
surplus in the accumulator is truncated by the final
`all_questions[:num_questions]` and a shortfall is returned as-is; the
direct path, by contrast, returns the generator's output unmodified. -/
theorem c6_chunked_truncation {Q ε : Type} (text : List Char)
    (num maxC : Nat) (gen : List Char → Int → Except ε (List Q))
    (qs : List Q)
    (h : generateFromChunkedText text num maxC gen = some qs) :
    qs.length ≤ num := by
  rcases hopt : distributeQuestions (smartChunkText text maxC
      paragraphsStrategy) num with _ | budgets
  · rw [generateFromChunkedText, hopt] at h
    cases h
  · rw [generateFromChunkedText, hopt] at h
    dsimp only at h
    injection h with h
    rw [← h]
    exact List.length_take_le _ _

/-- Witness input for the amended C6 (same shape as the C3
counterexample input, duplicated so the claims stay independent). -/
def c6wText : List Char :=
  List.replicate 4 'a' ++ ' ' ::
    (List.replicate 4 'b' ++ ' ' :: List.replicate 4 'c')

def c6wGen : List Char → Int → Except Unit (List Nat) :=
  fun _ n => Except.ok (List.replicate n.toNat 0)

theorem c6_chunked_truncation_witness :
    ∃ qs, generateFromChunkedText c6wText 1 10 c6wGen = some qs
      ∧ qs.length ≤ 1 :=
  ⟨[], by decide, c6_chunked_truncation c6wText 1 10 c6wGen [] (by decide)⟩

end AQG
